import Mathlib

/-!
Shallow embedding of the luna-rs core (client sender loop, server receive
loop, packet codec, and the built-in workload generators) together with
proofs of the specification claims about them.

The definitions below are translated from the Rust sources:
`src/lib.rs` (constants, `ReceivedPacket` and its `TryFrom` decoder),
`src/client.rs` (`client::run` pacing/send loop), `src/server.rs`
(`Server::run` receive loop echo decision), and `src/generator.rs`
(`parse_timespec`, `parse_interval`, `generator`, `generator_vary_size`).
Machine integers are modelled as `Nat`/`Int` with explicit wrap-around
where the Rust types wrap; fallible operations return `Option`/`Except`;
operations that can panic (indexing, `splice`) additionally get a
bounds-checked variant returning `Option`.
-/

set_option autoImplicit false

namespace Luna

/-- Decidable equality for `Except`, used to evaluate decode and
generator results on concrete inputs. -/
instance instDecEqExcept {ε α : Type} [DecidableEq ε] [DecidableEq α] :
    DecidableEq (Except ε α) := fun a b =>
  match a, b with
  | Except.error e, Except.error f =>
    if h : e = f then Decidable.isTrue (by rw [h])
    else Decidable.isFalse (by simp [h])
  | Except.error _, Except.ok _ => Decidable.isFalse (by simp)
  | Except.ok _, Except.error _ => Decidable.isFalse (by simp)
  | Except.ok x, Except.ok y =>
    if h : x = y then Decidable.isTrue (by rw [h])
    else Decidable.isFalse (by simp [h])

/-- `MIN_SIZE` from lib.rs: `size_of::<u32>() + size_of::<timespec>() +
size_of::<u8>()` = 4 + 16 + 1 on 64-bit Linux. -/
def MIN_SIZE : Nat := 4 + 16 + 1

/-- `ECHO_FLAG` from lib.rs. -/
def ECHO_FLAG : Nat := 1

/-- Nanoseconds per second, as used by nix `TimeSpec` normalization. -/
def NANOS_PER_SEC : Int := 1000000000

/-- Model of nix `TimeSpec`: signed seconds and signed nanoseconds
(`time_t` and `c_long` are both `i64` on 64-bit Linux). -/
structure TimeSpecL where
  sec : Int
  nsec : Int
deriving DecidableEq, Repr

/-- The instant a `TimeSpecL` denotes, in nanoseconds. -/
def TimeSpecL.total (t : TimeSpecL) : Int := t.sec * NANOS_PER_SEC + t.nsec

/-- nix `impl Add for TimeSpec`: componentwise addition normalizing the
nanosecond field with Rust truncating division/remainder. -/
def tsAdd (a b : TimeSpecL) : TimeSpecL :=
  { sec := a.sec + b.sec + (a.nsec + b.nsec).tdiv NANOS_PER_SEC,
    nsec := (a.nsec + b.nsec).tmod NANOS_PER_SEC }

/-- `delay.foldl` over a packet list: repeated `t = t + next.delay`. -/
def tsAddDelays (u : TimeSpecL) (ds : List TimeSpecL) : TimeSpecL :=
  ds.foldl tsAdd u

/-- Big-endian bytes of the low `w` bytes of `x` (`to_be_bytes`). -/
def beBytes : Nat → Nat → List Nat
  | 0, _ => []
  | w + 1, x => (x / 256 ^ w % 256) :: beBytes w x

/-- Value of a big-endian byte list (`from_be_bytes`, unsigned). -/
def fromBe (l : List Nat) : Nat := l.foldl (fun a b => a * 256 + b) 0

/-- `u32::to_be_bytes` (the argument is kept below `2^32` by callers). -/
def u32_to_be (x : Nat) : List Nat := beBytes 4 x

/-- `i64::to_be_bytes`: two's-complement representation, big-endian. -/
def i64_to_be (x : Int) : List Nat := beBytes 8 (x.emod (2 ^ 64)).toNat

/-- `i64::from_be_bytes`: read 8 bytes big-endian, two's complement. -/
def be_to_i64 (l : List Nat) : Int :=
  let n : Nat := fromBe l
  if n < 2 ^ 63 then (n : Int) else (n : Int) - 2 ^ 64

/-- `Vec::splice(off..off+bs.length, bs)`: replace the range starting at
`off` of length `bs.length` by `bs` (in-bounds uses only). -/
def writeAt (buf : List Nat) (off : Nat) (bs : List Nat) : List Nat :=
  buf.take off ++ bs ++ buf.drop (off + bs.length)

/-- Bounds-checked `Vec::splice(start..stop, bs)`; `none` models the
Rust panic on a range that does not lie within the vector. -/
def spliceChecked (buf : List Nat) (start stop : Nat) (bs : List Nat) :
    Option (List Nat) :=
  if start ≤ stop ∧ stop ≤ buf.length
  then some (buf.take start ++ bs ++ buf.drop stop)
  else none

/-- Bounds-checked `buf[i] = x`; `none` models the Rust panic on an
out-of-bounds index. -/
def setChecked (buf : List Nat) (i : Nat) (x : Nat) : Option (List Nat) :=
  if i < buf.length then some (buf.set i x) else none

/-- Bounds-checked `&buf[..k]`; `none` models the Rust panic when `k`
exceeds the length. -/
def takeChecked (buf : List Nat) (k : Nat) : Option (List Nat) :=
  if k ≤ buf.length then some (buf.take k) else none

/-- Ancillary control message attached to a received datagram. -/
inductive ControlMessage where
  | ScmTimestampns (t : TimeSpecL)
  | otherCmsg (tag : Nat)
deriving DecidableEq, Repr

/-- Model of nix `RecvMsg` as consumed by the decoder: the received
bytes (`iovs().next()`, whose length is `r.bytes`), the optional peer
address, and the ancillary messages. Addresses are abstract tokens. -/
structure RecvMsg where
  data : List Nat
  address : Option Nat
  cmsgs : List ControlMessage
deriving DecidableEq, Repr

/-- `RecvMsg::bytes`: number of bytes received into the single iov. -/
def RecvMsg.bytes (r : RecvMsg) : Nat := r.data.length

/-- The error kinds used by the decoder (`std::io::ErrorKind`). -/
inductive ErrorKind where
  | InvalidData
  | OtherKind (tag : Nat)
deriving DecidableEq, Repr

/-- `std::io::Error` as kind plus message. -/
structure IOError where
  kind : ErrorKind
  msg : String
deriving DecidableEq, Repr

/-- `ReceivedPacket` from lib.rs. -/
structure ReceivedPacket where
  source : Nat
  receive_time : TimeSpecL
  size : Nat
  sequence : Nat
  timestamp : TimeSpecL
  flags : Nat
deriving DecidableEq, Repr

/-- The first `ScmTimestampns` ancillary message, if any: the
`cmsgs().filter_map(...).next()` pipeline of the decoder. -/
def firstNsTimestamp (cs : List ControlMessage) : Option TimeSpecL :=
  (cs.filterMap (fun c => match c with
    | ControlMessage.ScmTimestampns t => some t
    | ControlMessage.otherCmsg _ => none)).head?

/-- `TryFrom<RecvMsg> for ReceivedPacket` (lib.rs): check the length,
the source address, then the receive timestamp; then split the payload
as u32 sequence, i64 seconds, i64 nanoseconds, one flags byte. The
`rest[0]` indexing of the source is guarded by the `MIN_SIZE` check, so
`headD 0` here always reads an existing byte. -/
def ReceivedPacket.tryFrom (r : RecvMsg) : Except IOError ReceivedPacket :=
  if r.bytes < MIN_SIZE then
    Except.error ⟨ErrorKind.InvalidData, "packet too small"⟩
  else
    match r.address with
    | none => Except.error ⟨ErrorKind.InvalidData, "no source address"⟩
    | some source =>
      match firstNsTimestamp r.cmsgs with
      | none => Except.error ⟨ErrorKind.InvalidData, "no receive time data"⟩
      | some rtime =>
        let p1 := r.data.splitAt 4
        let seq := fromBe p1.1
        let p2 := p1.2.splitAt 8
        let sec := be_to_i64 p2.1
        let p3 := p2.2.splitAt 8
        let nsec := be_to_i64 p3.1
        Except.ok
          { source := source, receive_time := rtime, size := r.bytes,
            sequence := seq, timestamp := ⟨sec, nsec⟩,
            flags := p3.2.headD 0 }

/-- The zero-padded wire encoding the client produces: a zeroed buffer
of size `n` with the four fields spliced in at offsets 0, 4, 12 and byte
20 (client.rs buffer writes), big-endian. -/
def encodePacket (n : Nat) (seq : Nat) (sec nsec : Int) (flags : Nat) :
    List Nat :=
  let b0 := List.replicate n 0
  let b1 := writeAt b0 0 (u32_to_be seq)
  let b2 := writeAt b1 4 (i64_to_be sec)
  let b3 := writeAt b2 12 (i64_to_be nsec)
  b3.set 20 flags

/-- An echo send performed by the server loop: the payload passed to
`sendmsg` and the destination (`r.address`). -/
structure EchoAction where
  payload : List Nat
  dest : Option Nat
deriving DecidableEq, Repr

/-- The echo decision of `Server::run` (server.rs): echo exactly when
`r.bytes >= MIN_SIZE && 0 != (data[20] & ECHO_FLAG)`; the echo sends the
received bytes to the datagram source. The `data[20]` indexing is
guarded by the length conjunct, so `getD 20 0` always reads an existing
byte when the condition can reach it. -/
def serverEcho (r : RecvMsg) : Option EchoAction :=
  if MIN_SIZE ≤ r.bytes ∧ (r.data.getD 20 0) &&& ECHO_FLAG ≠ 0
  then some ⟨r.data, r.address⟩
  else none

/-- One iteration of the server receive loop body on a nonempty
datagram: the echo action (if any) and the decode outcome published to
the logger on success. The echo happens before and regardless of the
decode attempt. -/
def serverStep (r : RecvMsg) :
    Option EchoAction × Except IOError ReceivedPacket :=
  (serverEcho r, ReceivedPacket.tryFrom r)

/-- `PacketData` from lib.rs. -/
structure PacketData where
  delay : TimeSpecL
  size : Nat
deriving DecidableEq, Repr

/-- Sender-loop state in `client::run`: the reusable send buffer, the
`u32` sequence counter, the optional absolute schedule time `t`, and the
index of the next `clock_gettime` call (reads are modelled by an oracle
`clock : Nat → TimeSpecL` giving the value of the i-th call). -/
structure ClientState where
  buffer : List Nat
  seq : Nat
  t : Option TimeSpecL
  clockIdx : Nat
deriving Repr

/-- What one loop iteration observably does: the datagram payload handed
to `sendmsg`, the absolute sleep target, and the target passed to each
`clock_nanosleep` call of the retry loop (one entry per call). -/
structure SendRec where
  payload : List Nat
  target : TimeSpecL
  attempts : List TimeSpecL
deriving DecidableEq, Repr

/-- The `clock_nanosleep` retry loop of client.rs: the loop body does
not modify `t`, so every attempt (the `eintr` interrupted ones and the
final successful one) is issued with the same absolute target. -/
def retrySleep (t : TimeSpecL) : Nat → List TimeSpecL
  | 0 => [t]
  | n + 1 => t :: retrySleep t n

/-- One iteration of the sender loop (client.rs): advance `t` (reading
the clock on the first iteration), sleep (retrying `eintr` times), read
the clock, splice the timestamp into bytes 4..12 and 12..20, send the
first `buffer_size.min(next.size)` bytes, then increment `seq` (wrapping
as `u32`) and splice it into bytes 0..4. -/
def clientStep (bufferSize : Nat) (clock : Nat → TimeSpecL)
    (p : PacketData) (eintr : Nat) (s : ClientState) :
    ClientState × SendRec :=
  let base := match s.t with
    | some u => (u, s.clockIdx)
    | none => (clock s.clockIdx, s.clockIdx + 1)
  let t := tsAdd base.1 p.delay
  let attempts := retrySleep t eintr
  let current := clock base.2
  let buf1 := writeAt s.buffer 4 (i64_to_be current.sec)
  let buf2 := writeAt buf1 12 (i64_to_be current.nsec)
  let payload := buf2.take (min bufferSize p.size)
  let seqN := (s.seq + 1) % 2 ^ 32
  let buf3 := writeAt buf2 0 (u32_to_be seqN)
  (⟨buf3, seqN, some t, base.2 + 1⟩, ⟨payload, t, attempts⟩)

/-- The sender loop over the channel contents, paired with the number of
`EINTR` interruptions each sleep suffers before succeeding. -/
def clientLoop (bufferSize : Nat) (clock : Nat → TimeSpecL) :
    List (PacketData × Nat) → ClientState → List SendRec
  | [], _ => []
  | q :: rest, s =>
    let r := clientStep bufferSize clock q.1 q.2 s
    r.2 :: clientLoop bufferSize clock rest r.1

/-- The send buffer right after setup: `buffer_size` zero bytes, byte 20
set to `ECHO_FLAG` when echo was requested (client.rs). -/
def initBuffer (bufferSize : Nat) (echo : Bool) : List Nat :=
  if echo then (List.replicate bufferSize 0).set 20 ECHO_FLAG
  else List.replicate bufferSize 0

/-- `client::run` restricted to its observable send behaviour: run the
pacing loop from the freshly initialized state over the generator
emissions, assuming every `sendmsg` succeeds. -/
def clientRun (bufferSize : Nat) (echo : Bool) (clock : Nat → TimeSpecL)
    (packets : List PacketData) (eintrs : List Nat) : List SendRec :=
  clientLoop bufferSize clock (packets.zip eintrs)
    ⟨initBuffer bufferSize echo, 0, none, 0⟩

/-- The pair (anchor instant, index of the `current` clock read) used
by one iteration: on the first iteration the anchor is a fresh clock
read and the `current` read is the following call. -/
def stepBase (clock : Nat → TimeSpecL) (s : ClientState) :
    TimeSpecL × Nat :=
  match s.t with
  | some u => (u, s.clockIdx)
  | none => (clock s.clockIdx, s.clockIdx + 1)

/-- `clientStep` with every buffer access bounds-checked; `none` models
a Rust panic (out-of-bounds `splice` or slice). -/
def clientStepChecked (bufferSize : Nat) (clock : Nat → TimeSpecL)
    (p : PacketData) (eintr : Nat) (s : ClientState) :
    Option (ClientState × SendRec) := do
  let buf1 ← spliceChecked s.buffer 4 12
    (i64_to_be (clock (stepBase clock s).2).sec)
  let buf2 ← spliceChecked buf1 12 20
    (i64_to_be (clock (stepBase clock s).2).nsec)
  let payload ← takeChecked buf2 (min bufferSize p.size)
  let buf3 ← spliceChecked buf2 0 4 (u32_to_be ((s.seq + 1) % 2 ^ 32))
  pure (⟨buf3, (s.seq + 1) % 2 ^ 32,
    some (tsAdd (stepBase clock s).1 p.delay), (stepBase clock s).2 + 1⟩,
    ⟨payload, tsAdd (stepBase clock s).1 p.delay,
      retrySleep (tsAdd (stepBase clock s).1 p.delay) eintr⟩)

/-- The sender loop with bounds-checked buffer accesses. -/
def clientLoopChecked (bufferSize : Nat) (clock : Nat → TimeSpecL) :
    List (PacketData × Nat) → ClientState → Option (List SendRec)
  | [], _ => some []
  | q :: rest, s => do
    let r ← clientStepChecked bufferSize clock q.1 q.2 s
    let rs ← clientLoopChecked bufferSize clock rest r.1
    pure (r.2 :: rs)

/-- `client::run` with bounds-checked buffer accesses, including the
`buffer[20] = ECHO_FLAG` write performed during setup when echo is
requested; `none` models a panic. -/
def clientRunChecked (bufferSize : Nat) (echo : Bool)
    (clock : Nat → TimeSpecL) (packets : List PacketData)
    (eintrs : List Nat) : Option (List SendRec) := do
  let b0 := List.replicate bufferSize 0
  let b1 ← if echo then setChecked b0 20 ECHO_FLAG else some b0
  clientLoopChecked bufferSize clock (packets.zip eintrs) ⟨b1, 0, none, 0⟩

/-- Default `SendRec` used with `List.getD` in theorem statements. -/
def dfltSendRec : SendRec := ⟨[], ⟨0, 0⟩, []⟩

/-- Default `PacketData` used with `List.getD` in theorem statements. -/
def dfltPacket : PacketData := ⟨⟨0, 0⟩, 0⟩

/-- Default `(PacketData, eintr)` pair used with `List.getD`. -/
def dfltPair : PacketData × Nat := (dfltPacket, 0)

/-- The base instant the schedule of a (partially run) sender is
anchored at: the pending `t` if set, otherwise the next clock read. -/
def clientAnchor (clock : Nat → TimeSpecL) (s : ClientState) : TimeSpecL :=
  match s.t with
  | some u => u
  | none => clock s.clockIdx

/-- Generator options: the `HashMap<String, String>` passed to the
built-in generators, as an association list (keys are unique in use). -/
def Options : Type := List (String × String)

/-- `HashMap::get` on the options map. -/
def getOpt (o : Options) (k : String) : Option String :=
  (List.find? (fun p => p.1 = k) o).map (fun p => p.2)

/-- `HashMap::contains_key` on the options map. -/
def containsKey (o : Options) (k : String) : Bool :=
  (getOpt o k).isSome

/-- Value of a digit string, most significant first. -/
def digitsVal (cs : List Char) : Nat :=
  cs.foldl (fun a c => a * 10 + (c.toNat - 48)) 0

/-- Parse a list of ascii digits: at least one digit, digits only. -/
def parseDigits (cs : List Char) : Option Nat :=
  if cs ≠ [] ∧ cs.all Char.isDigit then some (digitsVal cs) else none

/-- Rust unsigned integer parsing (`str::parse::<uN>` with
`2 ^ width` as the exclusive bound): optional leading `+`, then
digits; fails on empty input, other characters, or overflow. -/
def parseUnsigned (bound : Nat) (s : String) : Option Nat :=
  match s.data with
  | [] => none
  | c :: rest =>
    match parseDigits (if c = '+' then rest else c :: rest) with
    | none => none
    | some v => if v < bound then some v else none

/-- Rust signed integer parsing (`str::parse::<iN>` with `2 ^ (width-1)`
as `bound`): optional sign, then digits; range `[-bound, bound)`. -/
def parseSigned (bound : Nat) (s : String) : Option Int :=
  match s.data with
  | [] => none
  | c :: rest =>
    if c = '-' then
      match parseDigits rest with
      | none => none
      | some v => if v ≤ bound then some (-(v : Int)) else none
    else
      match parseDigits (if c = '+' then rest else c :: rest) with
      | none => none
      | some v => if v < bound then some (v : Int) else none

/-- `str::split_once('.')`: split at the first dot, if any. -/
def splitOnceDot : List Char → Option (List Char × List Char)
  | [] => none
  | c :: rest =>
    if c = '.' then some ([], rest)
    else match splitOnceDot rest with
      | none => none
      | some p => some (c :: p.1, p.2)

/-- `format!` padding `{:0<9}`: left-align, pad on the right with `0`
to width 9. -/
def padRight9 (cs : List Char) : List Char :=
  cs ++ List.replicate (9 - cs.length) '0'

/-- `parse_timespec` from generator.rs: split `S.F` at the first dot
(absent dot means empty fraction), replace an empty integer part by
`"0"`, right-pad the fraction with zeros to 9 places, keep the first 9,
and parse both parts as `i64`. -/
def parse_timespec (value : String) : Option TimeSpecL :=
  let v := (splitOnceDot value.data).getD (value.data, [])
  let intPart : List Char := if v.1 = [] then ['0'] else v.1
  let fracPart : List Char := (padRight9 v.2).take 9
  match parseSigned (2 ^ 63) (String.mk intPart) with
  | none => none
  | some s =>
    match parseSigned (2 ^ 63) (String.mk fracPart) with
    | none => none
    | some n => some ⟨s, n⟩

/-- `InvalidOption` error from generator.rs (source error elided to a
message string). -/
structure InvalidOption where
  option : String
deriving DecidableEq, Repr

/-- `u64 as i64` cast used when converting `Duration` seconds. -/
def toI64 (n : Nat) : Int :=
  if n % 2 ^ 64 < 2 ^ 63 then ((n % 2 ^ 64 : Nat) : Int)
  else ((n % 2 ^ 64 : Nat) : Int) - 2 ^ 64

/-- `TimeSpec::from(Duration::from_millis(x))`. -/
def durationFromMillis (x : Nat) : TimeSpecL :=
  ⟨toI64 (x / 1000), ((x % 1000 : Nat) : Int) * 1000000⟩

/-- `TimeSpec::from(Duration::from_micros(x))`. -/
def durationFromMicros (x : Nat) : TimeSpecL :=
  ⟨toI64 (x / 1000000), ((x % 1000000 : Nat) : Int) * 1000⟩

/-- `TimeSpec::from(Duration::from_nanos(x))`. -/
def durationFromNanos (x : Nat) : TimeSpecL :=
  ⟨toI64 (x / 1000000000), ((x % 1000000000 : Nat) : Int)⟩

/-- `parse_or_default!` for a `u64` option. -/
def parseOrDefaultU64 (o : Options) (k : String) (dflt : Nat) :
    Except InvalidOption Nat :=
  match getOpt o k with
  | none => Except.ok dflt
  | some v =>
    match parseUnsigned (2 ^ 64) v with
    | none => Except.error ⟨k⟩
    | some n => Except.ok n

/-- `parse_or_default!` for a `usize` option (64-bit). -/
def parseOrDefaultUsize (o : Options) (k : String) (dflt : Nat) :
    Except InvalidOption Nat :=
  parseOrDefaultU64 o k dflt

/-- `parse_or_default!` for an `i32` option (the `count` options fall
back to `i32` through the untyped literal default and `0..count`). -/
def parseOrDefaultI32 (o : Options) (k : String) (dflt : Int) :
    Except InvalidOption Int :=
  match getOpt o k with
  | none => Except.ok dflt
  | some v =>
    match parseSigned (2 ^ 31) v with
    | none => Except.error ⟨k⟩
    | some n => Except.ok n

/-- `parse_interval` from generator.rs: at most one of `interval`,
`msec`, `usec`, `nsec` may be present; with none present the result is
`none` (caller applies its default); otherwise the specified unit is
parsed. -/
def parse_interval (o : Options) :
    Except InvalidOption (Option TimeSpecL) :=
  let params : List String := ["interval", "msec", "usec", "nsec"]
  let m := params.filter (fun p => containsKey o p)
  if m.length = 0 then Except.ok none
  else if m.length > 1 then
    Except.error ⟨m.getD 1 ""⟩
  else
    match m.getD 0 "" with
    | "msec" => do
      let x ← parseOrDefaultU64 o "msec" 0
      pure (some (durationFromMillis x))
    | "usec" => do
      let x ← parseOrDefaultU64 o "usec" 0
      pure (some (durationFromMicros x))
    | "nsec" => do
      let x ← parseOrDefaultU64 o "nsec" 0
      pure (some (durationFromNanos x))
    | _ =>
      match parse_timespec ((getOpt o "interval").getD "") with
      | none => Except.error ⟨"interval"⟩
      | some t => Except.ok (some t)

/-- The `Default` generator `generator` (generator.rs): `count` packets
(`i32`, negative counts emit nothing) of fixed `size` and fixed delay,
defaults `count = 10`, `size = MIN_SIZE`, delay 0.5 s. -/
def generator (o : Options) : Except InvalidOption (List PacketData) := do
  let count ← parseOrDefaultI32 o "count" 10
  let size ← parseOrDefaultUsize o "size" MIN_SIZE
  let delayOpt ← parse_interval o
  pure (List.replicate count.toNat ⟨delayOpt.getD ⟨0, 500000000⟩, size⟩)

/-- The size oscillation of the `Vary` generator: emit
`max_size.min(s)`, then double while `grow`, clamping the halving phase
at `MIN_SIZE`; `grow` flips at `max_size` and `MIN_SIZE` exactly as in
the Rust loop body. -/
def varySizes (maxSize : Nat) : Nat → Nat → Bool → List Nat
  | 0, _, _ => []
  | n + 1, s, grow =>
    min maxSize s ::
      (if grow then varySizes maxSize n (s * 2) (decide (s * 2 < maxSize))
       else varySizes maxSize n (max MIN_SIZE (s / 2))
         (decide (max MIN_SIZE (s / 2) ≤ MIN_SIZE)))

/-- The `Vary` generator `generator_vary_size` (generator.rs):
defaults `count = 20`, delay 1 ms, `max-size = 1452`. -/
def generator_vary_size (o : Options) :
    Except InvalidOption (List PacketData) := do
  let count ← parseOrDefaultI32 o "count" 20
  let delayOpt ← parse_interval o
  let maxSize ← parseOrDefaultUsize o "max-size" 1452
  pure ((varySizes maxSize count.toNat MIN_SIZE true).map
    (fun s => ⟨delayOpt.getD ⟨0, 1000000⟩, s⟩))

/-! ### Helper lemmas: byte encodings -/

theorem length_beBytes (w x : Nat) : (beBytes w x).length = w := by
  induction w generalizing x with
  | zero => rfl
  | succ w ih => simp [beBytes, ih]

theorem foldl_beBytes (w x a : Nat) :
    (beBytes w x).foldl (fun u b => u * 256 + b) a
      = a * 256 ^ w + x % 256 ^ w := by
  induction w generalizing a with
  | zero => simp [beBytes, Nat.mod_one]
  | succ w ih =>
    have hsplit : x % 256 ^ (w + 1)
        = x % 256 ^ w + 256 ^ w * (x / 256 ^ w % 256) := by
      have h : (256 : Nat) ^ (w + 1) = 256 ^ w * 256 := by ring
      rw [h, Nat.mod_mul]
    simp only [beBytes, List.foldl_cons, ih]
    rw [hsplit]; ring

theorem fromBe_beBytes (w x : Nat) : fromBe (beBytes w x) = x % 256 ^ w := by
  simpa [fromBe] using foldl_beBytes w x 0

theorem fromBe_u32_to_be (x : Nat) (h : x < 2 ^ 32) :
    fromBe (u32_to_be x) = x := by
  have : (256 : Nat) ^ 4 = 2 ^ 32 := by norm_num
  rw [u32_to_be, fromBe_beBytes, this, Nat.mod_eq_of_lt h]

theorem length_u32_to_be (x : Nat) : (u32_to_be x).length = 4 :=
  length_beBytes 4 x

theorem length_i64_to_be (x : Int) : (i64_to_be x).length = 8 :=
  length_beBytes 8 _

theorem emod_two_pow_64 (x : Int) :
    x.emod (2 ^ 64) = x ∨ x.emod (2 ^ 64) = x + 2 ^ 64 ∨
      (x < -(2 ^ 63) ∨ 2 ^ 63 ≤ x) := by
  by_cases h1 : 0 ≤ x
  · by_cases h2 : x < 2 ^ 64
    · exact Or.inl (Int.emod_eq_of_lt h1 h2)
    · exact Or.inr (Or.inr (Or.inr (by omega)))
  · by_cases h2 : -(2 ^ 64) ≤ x
    · refine Or.inr (Or.inl ?_)
      have h3 : (x + 2 ^ 64).emod (2 ^ 64) = x + 2 ^ 64 :=
        Int.emod_eq_of_lt (by omega) (by omega)
      have k1 : (x + 2 ^ 64 * 1).emod (2 ^ 64) = x.emod (2 ^ 64) :=
        Int.add_mul_emod_self_left x (2 ^ 64) 1
      have k2 : x + 2 ^ 64 * 1 = x + 2 ^ 64 := by ring
      rw [k2] at k1
      omega
    · exact Or.inr (Or.inr (Or.inl (by omega)))

theorem be_to_i64_i64_to_be (x : Int) (h1 : -(2 ^ 63) ≤ x)
    (h2 : x < 2 ^ 63) : be_to_i64 (i64_to_be x) = x := by
  have hnn : (0 : Int) ≤ x.emod (2 ^ 64) := Int.emod_nonneg x (by norm_num)
  have hlt : x.emod (2 ^ 64) < 2 ^ 64 := Int.emod_lt_of_pos x (by norm_num)
  have hcast : ((x.emod (2 ^ 64)).toNat : Int) = x.emod (2 ^ 64) :=
    Int.toNat_of_nonneg hnn
  have hme := emod_two_pow_64 x
  have hm : x.emod (2 ^ 64) = x ∨ x.emod (2 ^ 64) = x + 2 ^ 64 := by
    rcases hme with h | h | h
    · exact Or.inl h
    · exact Or.inr h
    · omega
  have hnlt : (x.emod (2 ^ 64)).toNat < 256 ^ 8 := by
    have : (256 : Int) ^ 8 = 2 ^ 64 := by norm_num
    omega
  rw [be_to_i64, i64_to_be, fromBe_beBytes, Nat.mod_eq_of_lt hnlt]
  split
  · next hlt63 => omega
  · next hge63 => omega

/-! ### Helper lemmas: buffer writes -/

theorem length_writeAt (buf : List Nat) (off : Nat) (bs : List Nat)
    (h : off + bs.length ≤ buf.length) :
    (writeAt buf off bs).length = buf.length := by
  simp only [writeAt, List.length_append, List.length_take, List.length_drop]
  omega

theorem take_writeAt_of_le (buf : List Nat) (off k : Nat) (bs : List Nat)
    (hk : k ≤ off) (hoff : off ≤ buf.length) :
    (writeAt buf off bs).take k = buf.take k := by
  rw [writeAt, List.append_assoc,
    List.take_append_of_le_length (by simp; omega), List.take_take]
  congr 1
  omega

theorem take_writeAt_zero (buf : List Nat) (bs : List Nat) (k : Nat)
    (hk : bs.length = k) :
    (writeAt buf 0 bs).take k = bs := by
  simp only [writeAt, List.take_zero, List.nil_append]
  exact List.take_left' hk

theorem take_take_of_le {α : Type} (l : List α) (k n : Nat) (h : k ≤ n) :
    (l.take n).take k = l.take k := by
  rw [List.take_take]
  congr 1
  omega

/-! ### C6: Vary generator size sequence with max-size 1500 -/

/-- C6: running the `Vary` generator with option `max-size=1500` and the
default count, the sequence of sizes emitted begins
21, 42, 84, 168, 336, 672, 1344, 1500, 1344, 672: doubling from
`MIN_SIZE`, clamped to `max-size` at the peak, then halving. -/
theorem vary_generator_sizes_1500 :
    (generator_vary_size [("max-size", "1500")]).map
        (fun l => (l.map (fun p => p.size)).take 10)
      = Except.ok [21, 42, 84, 168, 336, 672, 1344, 1500, 1344, 672] := by
  decide

/-! ### C8: default max-size of the Vary generator -/

/-- C8 counterexample: with no `max-size` key the clamp actually applied
is 1452, not 1500; the eighth emitted size (index 7) is 1452. -/
theorem vary_default_clamp_1452 :
    (generator_vary_size []).map
        (fun l => (l.map (fun p => p.size)).getD 7 0) = Except.ok 1452
      ∧ (1452 : Nat) ≠ 1500 := by
  constructor
  · decide
  · decide

/-- C8 amended: when the options map contains no `max-size` key, the
`Vary` generator behaves exactly as if `max-size=1452` had been given:
the default clamp is 1452 bytes (not 1500). -/
theorem vary_default_max_size (o : Options)
    (h : getOpt o "max-size" = none) :
    generator_vary_size o
      = generator_vary_size (("max-size", "1452") :: o) := by
  have hcount : getOpt (("max-size", "1452") :: o) "count" = getOpt o "count" := by
    simp [getOpt, List.find?]
  have hget : ∀ k : String, k ≠ "max-size" →
      getOpt (("max-size", "1452") :: o) k = getOpt o k := by
    intro k hk
    simp [getOpt, List.find?, Ne.symm hk]
  have hinterval : parse_interval (("max-size", "1452") :: o) = parse_interval o := by
    have h1 := hget "interval" (by decide)
    have h2 := hget "msec" (by decide)
    have h3 := hget "usec" (by decide)
    have h4 := hget "nsec" (by decide)
    simp only [parse_interval, containsKey, parseOrDefaultU64,
      List.filter_cons, List.filter_nil, h1, h2, h3, h4]
  have hmax : getOpt (("max-size", "1452") :: o) "max-size" = some "1452" := by
    simp [getOpt, List.find?]
  have hpL : parseOrDefaultUsize o "max-size" 1452 = Except.ok 1452 := by
    simp [parseOrDefaultUsize, parseOrDefaultU64, h]
  have hpR : parseOrDefaultUsize (("max-size", "1452") :: o) "max-size" 1452
      = Except.ok 1452 := by
    simp only [parseOrDefaultUsize, parseOrDefaultU64, hmax]
    decide
  simp only [generator_vary_size, parseOrDefaultI32, hcount, hinterval,
    hpL, hpR]

/-! ### C9: sizes emitted by the built-in generators -/

theorem exceptBind_ok {ε α β : Type} (a : α) (f : α → Except ε β) :
    (Except.ok a >>= f) = f a := rfl

theorem exceptBind_error {ε α β : Type} (e : ε) (f : α → Except ε β) :
    ((Except.error e : Except ε α) >>= f) = Except.error e := rfl

theorem exceptPure {ε α : Type} (a : α) :
    (pure a : Except ε α) = Except.ok a := rfl

theorem varySizes_all_min (maxSize : Nat) (hmax : MIN_SIZE ≤ maxSize) :
    ∀ (n s : Nat) (grow : Bool), MIN_SIZE ≤ s →
      ∀ x ∈ varySizes maxSize n s grow, MIN_SIZE ≤ x := by
  intro n
  induction n with
  | zero => intro s grow _ x hx; simp [varySizes] at hx
  | succ n ih =>
    intro s grow hs x hx
    rw [varySizes] at hx
    rcases List.mem_cons.mp hx with h1 | h1
    · subst h1; exact Nat.le_min.mpr ⟨hmax, hs⟩
    · cases grow with
      | true =>
        rw [if_pos rfl] at h1
        exact ih (s * 2) _ (by omega) x h1
      | false =>
        rw [if_neg (by decide)] at h1
        exact ih (max MIN_SIZE (s / 2)) _ (Nat.le_max_left _ _) x h1

theorem parseOrDefaultU64_ok (o : Options) (k : String) (d n : Nat)
    (h : parseOrDefaultU64 o k d = Except.ok n) :
    (getOpt o k = none ∧ n = d) ∨
      (∃ v, getOpt o k = some v ∧ parseUnsigned (2 ^ 64) v = some n) := by
  unfold parseOrDefaultU64 at h
  rcases hg : getOpt o k with _ | v
  · rw [hg] at h
    have h2 : Except.ok (ε := InvalidOption) d = Except.ok n := h
    injection h2 with h2
    exact Or.inl ⟨rfl, h2.symm⟩
  · rw [hg] at h
    have h2 : (match parseUnsigned (2 ^ 64) v with
      | none => (Except.error ⟨k⟩ : Except InvalidOption Nat)
      | some n => Except.ok n) = Except.ok n := h
    rcases hp : parseUnsigned (2 ^ 64) v with _ | m
    · rw [hp] at h2; cases h2
    · rw [hp] at h2
      injection h2 with h2
      exact Or.inr ⟨v, rfl, by rw [hp, h2]⟩

theorem generator_ok_shape (o : Options) (l : List PacketData)
    (h : generator o = Except.ok l) :
    ∃ (cnt : Nat) (delay : TimeSpecL) (size : Nat),
      l = List.replicate cnt ⟨delay, size⟩ ∧
      ((getOpt o "size" = none ∧ size = MIN_SIZE) ∨
       (∃ v, getOpt o "size" = some v ∧
         parseUnsigned (2 ^ 64) v = some size)) := by
  unfold generator at h
  rcases hC : parseOrDefaultI32 o "count" 10 with e | cn
  · rw [hC, exceptBind_error] at h; cases h
  rw [hC, exceptBind_ok] at h
  rcases hS : parseOrDefaultUsize o "size" MIN_SIZE with e | sz
  · rw [hS, exceptBind_error] at h; cases h
  rw [hS, exceptBind_ok] at h
  rcases hI : parse_interval o with e | dOpt
  · rw [hI, exceptBind_error] at h; cases h
  rw [hI, exceptBind_ok, exceptPure] at h
  injection h with h
  exact ⟨cn.toNat, dOpt.getD ⟨0, 500000000⟩, sz, h.symm,
    parseOrDefaultU64_ok o "size" MIN_SIZE sz hS⟩

theorem generator_vary_ok_shape (o : Options) (l : List PacketData)
    (h : generator_vary_size o = Except.ok l) :
    ∃ (cnt : Nat) (delay : TimeSpecL) (maxSize : Nat),
      l = (varySizes maxSize cnt MIN_SIZE true).map (fun s => ⟨delay, s⟩) ∧
      ((getOpt o "max-size" = none ∧ maxSize = 1452) ∨
       (∃ v, getOpt o "max-size" = some v ∧
         parseUnsigned (2 ^ 64) v = some maxSize)) := by
  unfold generator_vary_size at h
  rcases hC : parseOrDefaultI32 o "count" 20 with e | cn
  · rw [hC, exceptBind_error] at h; cases h
  rw [hC, exceptBind_ok] at h
  rcases hI : parse_interval o with e | dOpt
  · rw [hI, exceptBind_error] at h; cases h
  rw [hI, exceptBind_ok] at h
  rcases hS : parseOrDefaultUsize o "max-size" 1452 with e | mx
  · rw [hS, exceptBind_error] at h; cases h
  rw [hS, exceptBind_ok, exceptPure] at h
  injection h with h
  exact ⟨cn.toNat, dOpt.getD ⟨0, 1000000⟩, mx, h.symm,
    parseOrDefaultU64_ok o "max-size" 1452 mx hS⟩

/-- C9 counterexample: the `Default` generator accepts `size=5` without
error and emits ten `PacketData` of size 5, below `MIN_SIZE` (21). -/
theorem default_generator_emits_small_size :
    (generator [("size", "5")]).map (fun l => l.map (fun p => p.size))
      = Except.ok [5, 5, 5, 5, 5, 5, 5, 5, 5, 5] ∧ (5 : Nat) < MIN_SIZE :=
  ⟨by decide, by decide⟩

/-- C9 amended: every `PacketData` emitted by a built-in generator has
size at least `MIN_SIZE` provided the `size` option of the `Default`
generator (when present) parses to at least `MIN_SIZE`, and the
`max-size` option of the `Vary` generator (when present) parses to at
least `MIN_SIZE`; in particular that holds for the defaults
(`size = MIN_SIZE`, `max-size = 1452`). -/
theorem builtin_generators_min_size (o : Options) (l : List PacketData) :
    (generator o = Except.ok l →
      (∀ v n, getOpt o "size" = some v →
        parseUnsigned (2 ^ 64) v = some n → MIN_SIZE ≤ n) →
      ∀ p ∈ l, MIN_SIZE ≤ p.size)
    ∧ (generator_vary_size o = Except.ok l →
      (∀ v n, getOpt o "max-size" = some v →
        parseUnsigned (2 ^ 64) v = some n → MIN_SIZE ≤ n) →
      ∀ p ∈ l, MIN_SIZE ≤ p.size) := by
  constructor
  · intro h hopt p hp
    obtain ⟨cnt, delay, size, rfl, hcase⟩ := generator_ok_shape o l h
    have hpe := List.eq_of_mem_replicate hp
    subst hpe
    rcases hcase with ⟨_, rfl⟩ | ⟨v, hv, hn⟩
    · exact le_refl _
    · exact hopt v size hv hn
  · intro h hopt p hp
    obtain ⟨cnt, delay, maxSize, rfl, hcase⟩ := generator_vary_ok_shape o l h
    have hmax : MIN_SIZE ≤ maxSize := by
      rcases hcase with ⟨_, rfl⟩ | ⟨v, hv, hn⟩
      · decide
      · exact hopt v maxSize hv hn
    simp only [List.mem_map] at hp
    obtain ⟨x, hx, rfl⟩ := hp
    exact varySizes_all_min maxSize hmax cnt MIN_SIZE true (le_refl _) x hx

/-- Witness for the amended C9 at a concrete input: the `Default`
generator with an empty options map emits packets of size `MIN_SIZE`. -/
theorem builtin_generators_min_size_witness :
    generator []
      = Except.ok (List.replicate 10
          (⟨⟨0, 500000000⟩, MIN_SIZE⟩ : PacketData))
    ∧ MIN_SIZE ≤ ((List.replicate 10
        (⟨⟨0, 500000000⟩, MIN_SIZE⟩ : PacketData)).getD 0 dfltPacket).size := by
  refine ⟨by decide, ?_⟩
  have h := (builtin_generators_min_size []
    (List.replicate 10 ⟨⟨0, 500000000⟩, MIN_SIZE⟩)).1 (by decide)
    (fun v n hv _ => Option.noConfusion hv)
  exact h _ (by decide)

/-! ### C7: parse_timespec -/

theorem char_digit_bounds (c : Char) (h : c.isDigit = true) :
    48 ≤ c.toNat ∧ c.toNat ≤ 57 := by
  simp [Char.isDigit] at h
  exact ⟨h.1, h.2⟩

theorem digit_ne_dot (c : Char) (h : c.isDigit = true) : ¬ c = '.' := by
  intro he
  have hb := char_digit_bounds c h
  rw [he] at hb
  have : ('.').toNat = 46 := rfl
  omega

theorem digit_ne_minus (c : Char) (h : c.isDigit = true) : ¬ c = '-' := by
  intro he
  have hb := char_digit_bounds c h
  rw [he] at hb
  have : ('-').toNat = 45 := rfl
  omega

theorem digit_ne_plus (c : Char) (h : c.isDigit = true) : ¬ c = '+' := by
  intro he
  have hb := char_digit_bounds c h
  rw [he] at hb
  have : ('+').toNat = 43 := rfl
  omega

theorem splitOnceDot_append (cs rest : List Char)
    (h : ∀ c ∈ cs, ¬ c = '.') :
    splitOnceDot (cs ++ '.' :: rest) = some (cs, rest) := by
  induction cs with
  | nil => simp [splitOnceDot]
  | cons c cs ih =>
    have hc : ¬ c = '.' := h c (by simp)
    rw [List.cons_append, splitOnceDot, if_neg hc,
      ih (fun x hx => h x (by simp [hx]))]

theorem foldl_digit_zeros (k a : Nat) :
    List.foldl (fun u c => u * 10 + (c.toNat - 48)) a
        (List.replicate k '0') = a * 10 ^ k := by
  induction k generalizing a with
  | zero => simp
  | succ k ih =>
    rw [List.replicate_succ, List.foldl_cons, ih]
    have h0 : ('0').toNat - 48 = 0 := rfl
    rw [h0]
    ring

theorem digitsVal_append_zeros (xs : List Char) (k : Nat) :
    digitsVal (xs ++ List.replicate k '0') = digitsVal xs * 10 ^ k := by
  unfold digitsVal
  rw [List.foldl_append, foldl_digit_zeros]

theorem foldl_digit_lt (cs : List Char) (h : cs.all Char.isDigit = true) :
    ∀ a, List.foldl (fun u c => u * 10 + (c.toNat - 48)) a cs
      < (a + 1) * 10 ^ cs.length := by
  induction cs with
  | nil => intro a; simp
  | cons c cs ih =>
    intro a
    rw [List.all_cons, Bool.and_eq_true] at h
    have hd : c.toNat - 48 ≤ 9 := by
      have hb := char_digit_bounds c h.1
      omega
    have h1 := ih h.2 (a * 10 + (c.toNat - 48))
    have h2 : (a * 10 + (c.toNat - 48) + 1) * 10 ^ cs.length
        ≤ ((a + 1) * 10) * 10 ^ cs.length :=
      Nat.mul_le_mul_right _ (by omega)
    have h3 : ((a + 1) * 10) * 10 ^ cs.length
        = (a + 1) * 10 ^ (cs.length + 1) := by ring
    simp only [List.foldl_cons, List.length_cons]
    omega

theorem digitsVal_lt (cs : List Char) (h : cs.all Char.isDigit = true) :
    digitsVal cs < 10 ^ cs.length := by
  have := foldl_digit_lt cs h 0
  simpa [digitsVal] using this

theorem parseDigits_eq (cs : List Char) (hne : cs ≠ [])
    (hall : cs.all Char.isDigit = true) :
    parseDigits cs = some (digitsVal cs) := by
  rw [parseDigits, if_pos ⟨hne, hall⟩]

theorem parseSigned_digits (bound : Nat) (cs : List Char) (hne : cs ≠ [])
    (hall : cs.all Char.isDigit = true) (hb : digitsVal cs < bound) :
    parseSigned bound (String.mk cs) = some ((digitsVal cs : Nat) : Int) := by
  obtain ⟨c, cs', rfl⟩ := List.exists_cons_of_ne_nil hne
  have hcd : c.isDigit = true := by
    rw [List.all_cons, Bool.and_eq_true] at hall
    exact hall.1
  show parseSigned bound (String.mk (c :: cs')) = _
  unfold parseSigned
  show (if c = '-' then _ else _) = _
  rw [if_neg (digit_ne_minus c hcd), if_neg (digit_ne_plus c hcd),
    parseDigits_eq _ hne hall]
  show (if digitsVal (c :: cs') < bound
      then some ((digitsVal (c :: cs') : Nat) : Int) else none) = _
  rw [if_pos hb]

theorem parseSigned_neg_digits (bound : Nat) (cs : List Char)
    (hne : cs ≠ []) (hall : cs.all Char.isDigit = true)
    (hb : digitsVal cs ≤ bound) :
    parseSigned bound (String.mk ('-' :: cs))
      = some (-((digitsVal cs : Nat) : Int)) := by
  unfold parseSigned
  show (if '-' = '-' then _ else _) = _
  rw [if_pos rfl, parseDigits_eq _ hne hall]
  show (if digitsVal cs ≤ bound
      then some (-((digitsVal cs : Nat) : Int)) else none) = _
  rw [if_pos hb]

theorem take_padRight9 (fd : List Char) :
    (padRight9 fd).take 9
      = fd.take 9 ++ List.replicate (9 - fd.length) '0' := by
  unfold padRight9
  rcases le_or_lt fd.length 9 with h | h
  · have h2 : (fd ++ List.replicate (9 - fd.length) '0').length = 9 := by
      simp only [List.length_append, List.length_replicate]
      omega
    rw [List.take_of_length_le (le_of_eq h2), List.take_of_length_le h]
  · have h9 : (9 : Nat) - fd.length = 0 := by omega
    rw [h9, List.replicate_zero, List.append_nil, List.append_nil]


theorem string_data_mk (l : List Char) : (String.mk l).data = l := rfl

/-- C7: for an input `S.F` with `S` a decimal integer (possibly signed,
empty meaning zero, value within the `i64` range) and `F` a digit
string, `parse_timespec` yields seconds `S` and nanoseconds
`F·10^(9-|F|)`; digits of `F` beyond the ninth are truncated, not
rounded; an empty fraction yields zero nanoseconds. -/
theorem parse_timespec_correct (sgn : Bool) (sd fd : List Char)
    (hsd : sd.all Char.isDigit = true) (hfd : fd.all Char.isDigit = true)
    (hne : sgn = true → sd ≠ [])
    (hrange : digitsVal sd ≤ 2 ^ 63 - (if sgn then 0 else 1)) :
    parse_timespec (String.mk
        ((if sgn then ['-'] else []) ++ sd ++ '.' :: fd))
      = some ⟨(if sgn then -((digitsVal sd : Nat) : Int)
                else ((digitsVal sd : Nat) : Int)),
              ((digitsVal (fd.take 9) * 10 ^ (9 - min fd.length 9) : Nat)
                : Int)⟩ := by
  have hfrac : parseSigned (2 ^ 63) (String.mk ((padRight9 fd).take 9))
      = some ((digitsVal (fd.take 9) * 10 ^ (9 - min fd.length 9) : Nat)
        : Int) := by
    rw [take_padRight9]
    have hall : (fd.take 9 ++ List.replicate (9 - fd.length) '0').all
        Char.isDigit = true := by
      rw [List.all_append, Bool.and_eq_true]
      constructor
      · exact List.all_eq_true.mpr
          (fun c hc => List.all_eq_true.mp hfd c (List.mem_of_mem_take hc))
      · exact List.all_eq_true.mpr (fun c hc => by
          rw [List.eq_of_mem_replicate hc]; decide)
    have hlen : (fd.take 9 ++ List.replicate (9 - fd.length) '0').length
        = 9 := by
      simp only [List.length_append, List.length_take,
        List.length_replicate]
      omega
    have hv := digitsVal_append_zeros (fd.take 9) (9 - fd.length)
    have hlt : digitsVal (fd.take 9 ++ List.replicate (9 - fd.length) '0')
        < 2 ^ 63 := by
      have h1 := digitsVal_lt _ hall
      rw [hlen] at h1
      have h2 : (10 : Nat) ^ 9 ≤ 2 ^ 63 := by norm_num
      omega
    have hexp : 9 - fd.length = 9 - min fd.length 9 := by omega
    rw [parseSigned_digits (2 ^ 63) _
      (List.length_pos.mp (by omega)) hall hlt, hv, hexp]
  cases sgn with
  | false =>
    have hsplit : splitOnceDot (sd ++ '.' :: fd) = some (sd, fd) := by
      apply splitOnceDot_append
      intro c hc
      exact digit_ne_dot c (List.all_eq_true.mp hsd c hc)
    simp only [Bool.false_eq_true, if_false, List.nil_append]
    unfold parse_timespec
    simp only [string_data_mk]
    rw [hsplit]
    simp only [Option.getD_some]
    by_cases hsd0 : sd = []
    · rw [if_pos hsd0]
      rw [show parseSigned (2 ^ 63) (String.mk ['0'])
          = some ((0 : Nat) : Int) from rfl]
      rw [hfrac]
      subst hsd0
      simp [digitsVal]
    · rw [if_neg hsd0]
      have hlt : digitsVal sd < 2 ^ 63 := by
        simp only [Bool.false_eq_true, if_false] at hrange
        omega
      rw [parseSigned_digits (2 ^ 63) sd hsd0 hsd hlt, hfrac]
  | true =>
    have hsplit : splitOnceDot ('-' :: sd ++ '.' :: fd)
        = some ('-' :: sd, fd) := by
      apply splitOnceDot_append
      intro c hc
      rcases List.mem_cons.mp hc with hm | hm
      · subst hm; decide
      · exact digit_ne_dot c (List.all_eq_true.mp hsd c hm)
    simp only [eq_self_iff_true, if_true, List.singleton_append]
    unfold parse_timespec
    simp only [string_data_mk]
    rw [hsplit]
    simp only [Option.getD_some]
    rw [if_neg (show ¬ ('-' :: sd : List Char) = [] by simp)]
    have hb : digitsVal sd ≤ 2 ^ 63 := by
      simp only [eq_self_iff_true, if_true] at hrange
      omega
    rw [parseSigned_neg_digits (2 ^ 63) sd (hne rfl) hsd hb, hfrac]


/-- Witness for C7 at the repo's own test vector `1.0000000006`:
truncation beyond the ninth fractional digit yields zero nanoseconds. -/
theorem parse_timespec_correct_witness :
    parse_timespec (String.mk
        (['1'] ++ '.' :: ['0', '0', '0', '0', '0', '0', '0', '0', '0', '6']))
      = some ⟨1, 0⟩ := by
  have h := parse_timespec_correct false ['1']
    ['0', '0', '0', '0', '0', '0', '0', '0', '0', '6']
    (by decide) (by decide) (fun hx => absurd hx (by decide)) (by decide)
  simpa using h

/-! ### C8 witness -/

/-- Witness for the amended C8 at the empty options map. -/
theorem vary_default_max_size_witness :
    getOpt [] "max-size" = none ∧
    generator_vary_size [] = generator_vary_size [("max-size", "1452")] :=
  ⟨rfl, vary_default_max_size [] rfl⟩

/-! ### C2: encode/decode round trip -/

theorem writeAt_append_exact (pre mid rest bs : List Nat) (off : Nat)
    (hoff : off = pre.length) (hmid : mid.length = bs.length) :
    writeAt (pre ++ (mid ++ rest)) off bs = pre ++ (bs ++ rest) := by
  subst hoff
  unfold writeAt
  rw [List.take_left, List.drop_append, List.drop_left' hmid,
    List.append_assoc]

theorem set_append_exact (pre l : List Nat) (off : Nat) (x : Nat)
    (hoff : off = pre.length) :
    (pre ++ l).set off x = pre ++ l.set 0 x := by
  subst hoff
  rw [List.set_append, if_neg (by omega), Nat.sub_self]

theorem encodePacket_eq (n : Nat) (seq : Nat) (sec nsec : Int)
    (flags : Nat) (hn : MIN_SIZE ≤ n) :
    encodePacket n seq sec nsec flags
      = u32_to_be seq ++ i64_to_be sec ++ i64_to_be nsec
        ++ flags :: List.replicate (n - MIN_SIZE) 0 := by
  have hn21 : 21 ≤ n := hn
  simp only [encodePacket]
  have h0 : List.replicate n (0 : Nat)
      = ([] : List Nat)
        ++ (List.replicate 4 0 ++ List.replicate (n - 4) 0) := by
    rw [List.nil_append, ← List.replicate_add]
    congr 1
    omega
  rw [h0, writeAt_append_exact _ _ _ _ _ (by simp)
    (by simp [length_u32_to_be]), List.nil_append]
  have h1 : List.replicate (n - 4) (0 : Nat)
      = List.replicate 8 0 ++ List.replicate (n - 12) 0 := by
    rw [← List.replicate_add]
    congr 1
    omega
  rw [h1, writeAt_append_exact _ _ _ _ _ (length_u32_to_be seq).symm
    (by simp [length_i64_to_be])]
  have h2 : u32_to_be seq
        ++ (i64_to_be sec ++ List.replicate (n - 12) (0 : Nat))
      = (u32_to_be seq ++ i64_to_be sec)
        ++ (List.replicate 8 0 ++ List.replicate (n - 20) 0) := by
    rw [List.append_assoc]
    congr 2
    rw [← List.replicate_add]
    congr 1
    omega
  rw [h2, writeAt_append_exact _ _ _ _ _
    (by simp [length_u32_to_be, length_i64_to_be])
    (by simp [length_i64_to_be])]
  have h3 : List.replicate (n - 20) (0 : Nat)
      = 0 :: List.replicate (n - 21) 0 := by
    rw [show n - 20 = (n - 21) + 1 by omega, List.replicate_succ]
  rw [h3]
  have h4 : (u32_to_be seq ++ i64_to_be sec)
        ++ (i64_to_be nsec ++ 0 :: List.replicate (n - 21) (0 : Nat))
      = ((u32_to_be seq ++ i64_to_be sec) ++ i64_to_be nsec)
        ++ (0 :: List.replicate (n - 21) 0) := by
    simp [List.append_assoc]
  rw [h4, set_append_exact _ _ _ _
    (by simp [length_u32_to_be, length_i64_to_be]), List.set_cons_zero]
  rfl

theorem tryFrom_ok_of (d : List Nat) (src : Nat) (rt : TimeSpecL)
    (cs : List ControlMessage) (hlen : MIN_SIZE ≤ d.length)
    (hfirst : firstNsTimestamp cs = some rt) :
    ReceivedPacket.tryFrom ⟨d, some src, cs⟩
      = Except.ok ⟨src, rt, d.length, fromBe (d.splitAt 4).1,
          ⟨be_to_i64 ((d.splitAt 4).2.splitAt 8).1,
           be_to_i64 (((d.splitAt 4).2.splitAt 8).2.splitAt 8).1⟩,
          (((d.splitAt 4).2.splitAt 8).2.splitAt 8).2.headD 0⟩ := by
  unfold ReceivedPacket.tryFrom
  rw [if_neg (by show ¬ d.length < MIN_SIZE; omega), hfirst]
  rfl

/-- C2: encoding `(seq, sec, nsec, flags)` at offsets 0, 4, 12, 20
big-endian into a zero-padded buffer of any size `n ≥ MIN_SIZE`, then
decoding it as a `ReceivedPacket` (with a source address and a
nanosecond receive-timestamp ancillary message present) returns exactly
the original four field values in the sequence, timestamp and flags
fields. -/
theorem encode_decode_roundtrip (n seq : Nat) (sec nsec : Int)
    (flags : Nat) (src : Nat) (rt : TimeSpecL)
    (hn : MIN_SIZE ≤ n) (hseq : seq < 2 ^ 32)
    (hsec1 : -(2 ^ 63) ≤ sec) (hsec2 : sec < 2 ^ 63)
    (hnsec1 : -(2 ^ 63) ≤ nsec) (hnsec2 : nsec < 2 ^ 63)
    (_hflags : flags < 256) :
    ReceivedPacket.tryFrom
        ⟨encodePacket n seq sec nsec flags, some src,
          [ControlMessage.ScmTimestampns rt]⟩
      = Except.ok ⟨src, rt, n, seq, ⟨sec, nsec⟩, flags⟩ := by
  have hms : MIN_SIZE = 21 := rfl
  have henc : encodePacket n seq sec nsec flags
      = u32_to_be seq ++ (i64_to_be sec ++ (i64_to_be nsec
        ++ flags :: List.replicate (n - MIN_SIZE) 0)) := by
    rw [encodePacket_eq n seq sec nsec flags hn]
    simp [List.append_assoc]
  have hlen : (encodePacket n seq sec nsec flags).length = n := by
    rw [henc]
    simp only [List.length_append, List.length_cons,
      List.length_replicate, length_u32_to_be, length_i64_to_be]
    omega
  rw [tryFrom_ok_of (encodePacket n seq sec nsec flags) src rt
    [ControlMessage.ScmTimestampns rt] (by rw [hlen]; exact hn) rfl]
  rw [hlen, henc]
  simp only [List.splitAt_eq]
  rw [List.take_left' (length_u32_to_be seq),
    List.drop_left' (length_u32_to_be seq),
    List.take_left' (length_i64_to_be sec),
    List.drop_left' (length_i64_to_be sec),
    List.take_left' (length_i64_to_be nsec),
    List.drop_left' (length_i64_to_be nsec)]
  rw [fromBe_u32_to_be seq hseq, be_to_i64_i64_to_be sec hsec1 hsec2,
    be_to_i64_i64_to_be nsec hnsec1 hnsec2]
  rfl

/-- Witness for C2 at a concrete packet: buffer size 32, sequence 7,
timestamp (123, -456), flags byte 1. -/
theorem encode_decode_roundtrip_witness :
    ReceivedPacket.tryFrom
        ⟨encodePacket 32 7 123 (-456) 1, some 9,
          [ControlMessage.ScmTimestampns ⟨10, 20⟩]⟩
      = Except.ok ⟨9, ⟨10, 20⟩, 32, 7, ⟨123, -456⟩, 1⟩ :=
  encode_decode_roundtrip 32 7 123 (-456) 1 9 ⟨10, 20⟩ (by decide)
    (by decide) (by decide) (by decide) (by decide) (by decide) (by decide)

/-! ### C4: decode error taxonomy -/

theorem firstNsTimestamp_none_iff (cs : List ControlMessage) :
    firstNsTimestamp cs = none
      ↔ ∀ t, ControlMessage.ScmTimestampns t ∉ cs := by
  rw [firstNsTimestamp, List.head?_eq_none_iff, List.filterMap_eq_nil_iff]
  constructor
  · intro h t ht
    have := h _ ht
    simp at this
  · intro h c hc
    cases c with
    | ScmTimestampns t => exact absurd hc (h t)
    | otherCmsg tag => rfl

/-- C4: constructing a `ReceivedPacket` from a received message fails
with "packet too small" exactly when the byte count is below `MIN_SIZE`;
otherwise with "no source address" exactly when no peer address was
exposed; otherwise with "no receive time data" exactly when no
nanosecond receive-timestamp ancillary message is present; otherwise it
succeeds; and every failure is an invalid-data error. -/
theorem tryFrom_error_taxonomy (r : RecvMsg) :
    (ReceivedPacket.tryFrom r
        = Except.error ⟨ErrorKind.InvalidData, "packet too small"⟩
      ↔ r.bytes < MIN_SIZE)
    ∧ (ReceivedPacket.tryFrom r
        = Except.error ⟨ErrorKind.InvalidData, "no source address"⟩
      ↔ (MIN_SIZE ≤ r.bytes ∧ r.address = none))
    ∧ (ReceivedPacket.tryFrom r
        = Except.error ⟨ErrorKind.InvalidData, "no receive time data"⟩
      ↔ (MIN_SIZE ≤ r.bytes ∧ r.address ≠ none ∧
          ∀ t, ControlMessage.ScmTimestampns t ∉ r.cmsgs))
    ∧ ((∃ p, ReceivedPacket.tryFrom r = Except.ok p)
      ↔ (MIN_SIZE ≤ r.bytes ∧ r.address ≠ none ∧
          ¬ ∀ t, ControlMessage.ScmTimestampns t ∉ r.cmsgs))
    ∧ (∀ e, ReceivedPacket.tryFrom r = Except.error e →
        e.kind = ErrorKind.InvalidData) := by
  by_cases hb : r.bytes < MIN_SIZE
  · have hred : ReceivedPacket.tryFrom r
        = Except.error ⟨ErrorKind.InvalidData, "packet too small"⟩ := by
      unfold ReceivedPacket.tryFrom
      rw [if_pos hb]
    refine ⟨iff_of_true hred hb, ?_, ?_, ?_, ?_⟩
    · rw [hred]
      exact iff_of_false (by decide) (fun h => absurd hb (by omega))
    · rw [hred]
      exact iff_of_false (by decide) (fun h => absurd hb (by omega))
    · rw [hred]
      constructor
      · intro h
        obtain ⟨p, hp⟩ := h
        cases hp
      · intro h
        exact absurd hb (by omega)
    · intro e he
      rw [hred] at he
      injection he with he
      rw [← he]
  · rcases ha : r.address with _ | src
    · have hred : ReceivedPacket.tryFrom r
          = Except.error ⟨ErrorKind.InvalidData, "no source address"⟩ := by
        unfold ReceivedPacket.tryFrom
        rw [if_neg hb, ha]
      refine ⟨?_, iff_of_true hred ⟨by omega, rfl⟩, ?_, ?_, ?_⟩
      · rw [hred]
        exact iff_of_false (by decide) (fun h => absurd h hb)
      · rw [hred]
        exact iff_of_false (by decide)
          (fun h => h.2.1 rfl)
      · rw [hred]
        constructor
        · intro h
          obtain ⟨p, hp⟩ := h
          cases hp
        · intro h
          exact (h.2.1 rfl).elim
      · intro e he
        rw [hred] at he
        injection he with he
        rw [← he]
    · rcases ht : firstNsTimestamp r.cmsgs with _ | rt
      · have hred : ReceivedPacket.tryFrom r
            = Except.error
              ⟨ErrorKind.InvalidData, "no receive time data"⟩ := by
          unfold ReceivedPacket.tryFrom
          rw [if_neg hb, ha, ht]
        have hnone := (firstNsTimestamp_none_iff r.cmsgs).mp ht
        refine ⟨?_, ?_,
          iff_of_true hred ⟨by omega, by simp [ha], hnone⟩, ?_, ?_⟩
        · rw [hred]
          exact iff_of_false (by decide) (fun h => absurd h hb)
        · rw [hred]
          exact iff_of_false (by decide)
            (fun h => Option.noConfusion h.2)
        · rw [hred]
          constructor
          · intro h
            obtain ⟨p, hp⟩ := h
            cases hp
          · intro h
            exact absurd hnone h.2.2
        · intro e he
          rw [hred] at he
          injection he with he
          rw [← he]
      · have hred : ReceivedPacket.tryFrom r = Except.ok
            ⟨src, rt, r.bytes, fromBe (r.data.splitAt 4).1,
              ⟨be_to_i64 ((r.data.splitAt 4).2.splitAt 8).1,
               be_to_i64
                 (((r.data.splitAt 4).2.splitAt 8).2.splitAt 8).1⟩,
              (((r.data.splitAt 4).2.splitAt 8).2.splitAt 8).2.headD
                0⟩ := by
          unfold ReceivedPacket.tryFrom
          rw [if_neg hb, ha, ht]
        have hsome : ¬ ∀ t, ControlMessage.ScmTimestampns t ∉ r.cmsgs := by
          intro hall
          rw [(firstNsTimestamp_none_iff r.cmsgs).mpr hall] at ht
          cases ht
        refine ⟨?_, ?_, ?_,
          iff_of_true ⟨_, hred⟩ ⟨by omega, by simp [ha], hsome⟩, ?_⟩
        · rw [hred]
          exact iff_of_false (fun h => Except.noConfusion h)
            (fun h => absurd h hb)
        · rw [hred]
          exact iff_of_false (fun h => Except.noConfusion h)
            (fun h => Option.noConfusion h.2)
        · rw [hred]
          exact iff_of_false (fun h => Except.noConfusion h)
            (fun h => absurd h.2.2 hsome)
        · intro e he
          rw [hred] at he
          cases he

/-- Witness for C4 at concrete messages: an empty datagram fails with
"packet too small". -/
theorem tryFrom_error_taxonomy_witness :
    ReceivedPacket.tryFrom ⟨[], none, []⟩
      = Except.error ⟨ErrorKind.InvalidData, "packet too small"⟩ :=
  (tryFrom_error_taxonomy ⟨[], none, []⟩).1.mpr (by decide)

/-! ### C3: server echo decision -/

/-- C3: in the server receive loop an echo is sent iff the datagram has
at least `MIN_SIZE` bytes and bit 0 (`ECHO_FLAG`) of byte 20 is set; the
echo consists of exactly the received bytes, sent in a single send to
the datagram source address; and the decision is a function of the
received bytes alone, independent of the address and ancillary data
that additionally determine whether the datagram decodes into a
`ReceivedPacket`. -/
theorem server_echo_decision (d : List Nat) (a : Option Nat)
    (c : List ControlMessage) :
    ((serverEcho ⟨d, a, c⟩).isSome
      ↔ (MIN_SIZE ≤ d.length ∧ (d.getD 20 0).testBit 0))
    ∧ (∀ e, serverEcho ⟨d, a, c⟩ = some e → e.payload = d ∧ e.dest = a)
    ∧ (∀ a2 c2, (serverEcho ⟨d, a2, c2⟩).isSome
        = (serverEcho ⟨d, a, c⟩).isSome) := by
  have hcond : ∀ (a3 : Option Nat) (c3 : List ControlMessage),
      (serverEcho ⟨d, a3, c3⟩).isSome
        = decide (MIN_SIZE ≤ d.length ∧ (d.getD 20 0) &&& ECHO_FLAG ≠ 0) := by
    intro a3 c3
    unfold serverEcho
    show (if MIN_SIZE ≤ d.length ∧ (d.getD 20 0) &&& ECHO_FLAG ≠ 0
        then some (⟨d, a3⟩ : EchoAction) else none).isSome = _
    by_cases h : MIN_SIZE ≤ d.length ∧ (d.getD 20 0) &&& ECHO_FLAG ≠ 0
    · rw [if_pos h, Option.isSome_some]
      exact (decide_eq_true h).symm
    · rw [if_neg h, Option.isSome_none]
      exact (decide_eq_false h).symm
  have hbit : (d.getD 20 0) &&& ECHO_FLAG ≠ 0
      ↔ (d.getD 20 0).testBit 0 := by
    rw [Nat.testBit_zero]
    have hm : (d.getD 20 0) &&& ECHO_FLAG = (d.getD 20 0) % 2 :=
      Nat.and_one_is_mod _
    rw [hm]
    simp only [decide_eq_true_eq]
    omega
  refine ⟨?_, ?_, ?_⟩
  · rw [hcond a c, decide_eq_true_eq]
    exact and_congr_right (fun _ => hbit)
  · intro e he
    unfold serverEcho at he
    by_cases h : MIN_SIZE ≤ (⟨d, a, c⟩ : RecvMsg).bytes
        ∧ ((⟨d, a, c⟩ : RecvMsg).data.getD 20 0) &&& ECHO_FLAG ≠ 0
    · rw [if_pos h] at he
      injection he with he
      rw [← he]
      exact ⟨rfl, rfl⟩
    · rw [if_neg h] at he
      cases he
  · intro a2 c2
    rw [hcond a2 c2, hcond a c]

/-- Witness for C3: a 21-byte datagram with byte 20 set to `ECHO_FLAG`
and no source address is echoed (while it cannot decode). -/
theorem server_echo_decision_witness :
    ((serverEcho ⟨List.replicate 20 0 ++ [1], none, []⟩).isSome
      ↔ (MIN_SIZE ≤ (List.replicate 20 0 ++ [1] : List Nat).length ∧
          ((List.replicate 20 0 ++ [1] : List Nat).getD 20 0).testBit 0))
    ∧ (serverEcho ⟨List.replicate 20 0 ++ [1], none, []⟩).isSome = true :=
  ⟨(server_echo_decision (List.replicate 20 0 ++ [1]) none []).1, by decide⟩

/-! ### Client sender loop: shared lemmas -/

theorem clientLoop_length (bs : Nat) (clock : Nat → TimeSpecL) :
    ∀ (pairs : List (PacketData × Nat)) (s : ClientState),
      (clientLoop bs clock pairs s).length = pairs.length := by
  intro pairs
  induction pairs with
  | nil => intro s; rfl
  | cons q rest ih => intro s; simp [clientLoop, ih]

theorem retrySleep_eq_replicate (t : TimeSpecL) :
    ∀ e, retrySleep t e = List.replicate (e + 1) t := by
  intro e
  induction e with
  | zero => rfl
  | succ e ih => rw [retrySleep, ih, ← List.replicate_succ]

theorem tsAdd_total (a b : TimeSpecL) :
    (tsAdd a b).total = a.total + b.total := by
  have h := Int.tmod_add_tdiv (a.nsec + b.nsec) NANOS_PER_SEC
  unfold tsAdd TimeSpecL.total
  ring_nf
  ring_nf at h
  linarith [h]

theorem tsAddDelays_total :
    ∀ (ds : List TimeSpecL) (u : TimeSpecL),
      (tsAddDelays u ds).total = u.total + (ds.map TimeSpecL.total).sum := by
  intro ds
  induction ds with
  | nil => intro u; simp [tsAddDelays]
  | cons d ds ih =>
    intro u
    show (tsAddDelays (tsAdd u d) ds).total = _
    rw [ih, tsAdd_total]
    simp [List.sum_cons]
    ring

theorem clientLoop_targets (bs : Nat) (clock : Nat → TimeSpecL) :
    ∀ (pairs : List (PacketData × Nat)) (s : ClientState) (i : Nat),
      i < pairs.length →
      ((clientLoop bs clock pairs s).getD i dfltSendRec).target
          = tsAddDelays (clientAnchor clock s)
            ((pairs.take (i + 1)).map (fun q => q.1.delay))
        ∧ ((clientLoop bs clock pairs s).getD i dfltSendRec).attempts
          = List.replicate ((pairs.getD i dfltPair).2 + 1)
            (((clientLoop bs clock pairs s).getD i dfltSendRec).target) := by
  intro pairs
  induction pairs with
  | nil => intro s i hi; simp at hi
  | cons q rest ih =>
    intro s i hi
    obtain ⟨sb, sq, st, sci⟩ := s
    cases i with
    | zero =>
      cases st with
      | none =>
        constructor
        · rfl
        · show (retrySleep _ q.2) = _
          rw [retrySleep_eq_replicate]
          rfl
      | some u =>
        constructor
        · rfl
        · show (retrySleep _ q.2) = _
          rw [retrySleep_eq_replicate]
          rfl
    | succ i =>
      have hi2 : i < rest.length := by
        simp at hi
        omega
      cases st with
      | none =>
        have := ih ((clientStep bs clock q.1 q.2
          ⟨sb, sq, none, sci⟩).1) i hi2
        refine ⟨?_, ?_⟩
        · show ((clientLoop bs clock rest _).getD i dfltSendRec).target = _
          rw [this.1]
          rfl
        · show ((clientLoop bs clock rest _).getD i dfltSendRec).attempts = _
          rw [this.2]
          rfl
      | some u =>
        have := ih ((clientStep bs clock q.1 q.2
          ⟨sb, sq, some u, sci⟩).1) i hi2
        refine ⟨?_, ?_⟩
        · show ((clientLoop bs clock rest _).getD i dfltSendRec).target = _
          rw [this.1]
          rfl
        · show ((clientLoop bs clock rest _).getD i dfltSendRec).attempts = _
          rw [this.2]
          rfl

/-- C5: the absolute sleep target of the i-th packet equals the clock
value read on the first iteration plus the (timespec) sum of the delays
up to and including delay_i — both as the literal fold of nix timespec
addition and as an exact identity on total nanoseconds — and every
`clock_nanosleep` attempt of iteration i (the EINTR-interrupted ones and
the final one) is issued with that same unchanged target, so signal
interruptions never shift any scheduled send time. -/
theorem client_pacing_schedule (bufferSize : Nat) (echo : Bool)
    (clock : Nat → TimeSpecL) (packets : List PacketData)
    (eintrs : List Nat) (i : Nat)
    (hlen : eintrs.length = packets.length) (hi : i < packets.length) :
    ((clientRun bufferSize echo clock packets eintrs).getD i
        dfltSendRec).target
      = tsAddDelays (clock 0)
          ((packets.take (i + 1)).map (fun p => p.delay))
    ∧ (((clientRun bufferSize echo clock packets eintrs).getD i
        dfltSendRec).target).total
      = (clock 0).total
        + ((packets.take (i + 1)).map (fun p => p.delay.total)).sum
    ∧ ((clientRun bufferSize echo clock packets eintrs).getD i
        dfltSendRec).attempts
      = List.replicate (eintrs.getD i 0 + 1)
          (((clientRun bufferSize echo clock packets eintrs).getD i
            dfltSendRec).target) := by
  have hzlen : (packets.zip eintrs).length = packets.length := by
    rw [List.length_zip, hlen, min_self]
  have hizip : i < (packets.zip eintrs).length := by omega
  have hfst : (packets.zip eintrs).map Prod.fst = packets :=
    List.map_fst_zip packets eintrs (le_of_eq hlen.symm)
  have hmapd : ∀ j : Nat,
      (((packets.zip eintrs).take j).map (fun q => q.1.delay))
        = (packets.take j).map (fun p => p.delay) := by
    intro j
    rw [List.map_take, List.map_take]
    congr 1
    rw [show (fun q : PacketData × Nat => q.1.delay)
      = (fun p : PacketData => p.delay) ∘ Prod.fst from rfl]
    rw [← List.map_map, hfst]
  have hpair : (packets.zip eintrs).getD i dfltPair
      = (packets.getD i dfltPacket, eintrs.getD i 0) := by
    rw [List.getD_eq_getElem _ _ hizip, List.getElem_zip,
      List.getD_eq_getElem _ _ hi, List.getD_eq_getElem _ _ (by omega)]
  have hanchor : clientAnchor clock
      (⟨initBuffer bufferSize echo, 0, none, 0⟩ : ClientState)
      = clock 0 := rfl
  have h := clientLoop_targets bufferSize clock (packets.zip eintrs)
    ⟨initBuffer bufferSize echo, 0, none, 0⟩ i hizip
  rw [hmapd (i + 1), hanchor, hpair] at h
  have h1 : ((clientRun bufferSize echo clock packets eintrs).getD i
      dfltSendRec).target
      = tsAddDelays (clock 0)
        ((packets.take (i + 1)).map (fun p => p.delay)) := h.1
  have h3 : ((clientRun bufferSize echo clock packets eintrs).getD i
      dfltSendRec).attempts
      = List.replicate (eintrs.getD i 0 + 1)
        (((clientRun bufferSize echo clock packets eintrs).getD i
          dfltSendRec).target) := h.2
  refine ⟨h1, ?_, h3⟩
  rw [h1, tsAddDelays_total]
  congr 1
  rw [List.map_map]
  rfl

/-- Witness for C5 at a concrete run: two packets with delays 1s and
2.5e8 ns, one EINTR on the second sleep. -/
theorem client_pacing_schedule_witness :
    ((clientRun 32 false (fun i => ⟨Int.ofNat i, 0⟩)
        [⟨⟨1, 0⟩, 21⟩, ⟨⟨0, 250000000⟩, 21⟩] [0, 1]).getD 1
        dfltSendRec).target
      = tsAddDelays ((fun i : Nat => (⟨Int.ofNat i, 0⟩ : TimeSpecL)) 0)
          (([⟨⟨1, 0⟩, 21⟩, ⟨⟨0, 250000000⟩, 21⟩]
            : List PacketData).take 2 |>.map (fun p => p.delay)) := by
  have h := client_pacing_schedule 32 false
    (fun i => ⟨Int.ofNat i, 0⟩) [⟨⟨1, 0⟩, 21⟩, ⟨⟨0, 250000000⟩, 21⟩]
    [0, 1] 1 (by decide) (by decide)
  exact h.1

/-! ### C1: one datagram per PacketData, clamped length, sequence field -/

theorem clientStep_payload (bs : Nat) (clock : Nat → TimeSpecL)
    (p : PacketData) (e : Nat) (s : ClientState) :
    ∃ x y : Int, (clientStep bs clock p e s).2.payload
        = (writeAt (writeAt s.buffer 4 (i64_to_be x)) 12
            (i64_to_be y)).take (min bs p.size)
      ∧ (clientStep bs clock p e s).1.buffer
        = writeAt (writeAt (writeAt s.buffer 4 (i64_to_be x)) 12
            (i64_to_be y)) 0 (u32_to_be ((s.seq + 1) % 2 ^ 32))
      ∧ (clientStep bs clock p e s).1.seq = (s.seq + 1) % 2 ^ 32 := by
  obtain ⟨sb, sq, st, sci⟩ := s
  cases st
  · exact ⟨_, _, rfl, rfl, rfl⟩
  · exact ⟨_, _, rfl, rfl, rfl⟩

theorem clientLoop_sends (bs : Nat) (clock : Nat → TimeSpecL)
    (hbs : MIN_SIZE ≤ bs) :
    ∀ (pairs : List (PacketData × Nat)) (s : ClientState) (k : Nat),
      s.buffer.length = bs →
      s.buffer.take 4 = u32_to_be (k % 2 ^ 32) →
      s.seq = k % 2 ^ 32 →
      ∀ i, i < pairs.length →
        ((clientLoop bs clock pairs s).getD i dfltSendRec).payload.length
            = min (pairs.getD i dfltPair).1.size bs
          ∧ (MIN_SIZE ≤ (pairs.getD i dfltPair).1.size →
              fromBe (((clientLoop bs clock pairs s).getD i
                dfltSendRec).payload.take 4) = (k + i) % 2 ^ 32) := by
  have hms : MIN_SIZE = 21 := rfl
  intro pairs
  induction pairs with
  | nil => intro s k _ _ _ i hi; simp at hi
  | cons q rest ih =>
    intro s k hsl hst4 hsq i hi
    obtain ⟨x, y, hpay, hbuf, hseq⟩ := clientStep_payload bs clock q.1 q.2 s
    have hl1 : (writeAt s.buffer 4 (i64_to_be x)).length = bs := by
      rw [length_writeAt]
      · exact hsl
      · rw [length_i64_to_be, hsl]; omega
    have hl2 : (writeAt (writeAt s.buffer 4 (i64_to_be x)) 12
        (i64_to_be y)).length = bs := by
      rw [length_writeAt]
      · exact hl1
      · rw [length_i64_to_be, hl1]; omega
    have ht4 : (writeAt (writeAt s.buffer 4 (i64_to_be x)) 12
        (i64_to_be y)).take 4 = u32_to_be (k % 2 ^ 32) := by
      rw [take_writeAt_of_le _ _ _ _ (by omega) (by rw [hl1]; omega),
        take_writeAt_of_le _ _ _ _ (by omega) (by rw [hsl]; omega), hst4]
    cases i with
    | zero =>
      constructor
      · show ((clientStep bs clock q.1 q.2 s).2).payload.length = _
        rw [hpay, List.length_take, hl2, List.getD_cons_zero]
        omega
      · intro hsz
        rw [List.getD_cons_zero] at hsz
        show fromBe (((clientStep bs clock q.1 q.2 s).2).payload.take 4) = _
        rw [hpay, List.take_take,
          min_eq_left (by omega : 4 ≤ min bs q.1.size), ht4,
          fromBe_u32_to_be _ (Nat.mod_lt _ (by norm_num))]
        omega
    | succ i =>
      have hi2 : i < rest.length := by simp at hi; omega
      have hnext := ih ((clientStep bs clock q.1 q.2 s).1) (k + 1)
        (by rw [hbuf, length_writeAt]
            · exact hl2
            · rw [length_u32_to_be, hl2]; omega)
        (by rw [hbuf, take_writeAt_zero _ _ _ (length_u32_to_be _), hsq,
              Nat.mod_add_mod])
        (by rw [hseq, hsq, Nat.mod_add_mod])
        i hi2
      constructor
      · show ((clientLoop bs clock rest
            ((clientStep bs clock q.1 q.2 s).1)).getD i
            dfltSendRec).payload.length = _
        rw [hnext.1, List.getD_cons_succ]
      · intro hsz
        rw [List.getD_cons_succ] at hsz
        show fromBe (((clientLoop bs clock rest
            ((clientStep bs clock q.1 q.2 s).1)).getD i
            dfltSendRec).payload.take 4) = _
        rw [hnext.2 hsz]
        congr 1
        omega

/-- C1: assuming every `sendmsg` succeeds, the sender emits exactly one
datagram per received `PacketData`, in generator-emission order; the
i-th datagram (from 0) has length `min(size_i, buffer_size)` and its
sequence field (bytes 0..4, big-endian) decodes to `i`. -/
theorem client_send_behaviour (bufferSize : Nat) (echo : Bool)
    (clock : Nat → TimeSpecL) (packets : List PacketData)
    (eintrs : List Nat)
    (hlen : eintrs.length = packets.length)
    (hbs : MIN_SIZE ≤ bufferSize)
    (hsz : ∀ p ∈ packets, MIN_SIZE ≤ p.size)
    (hcnt : packets.length ≤ 2 ^ 32) :
    (clientRun bufferSize echo clock packets eintrs).length
        = packets.length
    ∧ ∀ i, i < packets.length →
        ((clientRun bufferSize echo clock packets eintrs).getD i
            dfltSendRec).payload.length
          = min (packets.getD i dfltPacket).size bufferSize
        ∧ fromBe (((clientRun bufferSize echo clock packets eintrs).getD i
            dfltSendRec).payload.take 4) = i := by
  have hms : MIN_SIZE = 21 := rfl
  have hzlen : (packets.zip eintrs).length = packets.length := by
    rw [List.length_zip, hlen, min_self]
  have hinitlen : (initBuffer bufferSize echo).length = bufferSize := by
    unfold initBuffer
    cases echo
    · rw [if_neg (by decide)]
      simp
    · rw [if_pos rfl, List.length_set]
      simp
  have hinit4 : (initBuffer bufferSize echo).take 4
      = u32_to_be (0 % 2 ^ 32) := by
    have hz : (0 : Nat) % 2 ^ 32 = 0 := Nat.zero_mod _
    rw [hz]
    have hu : u32_to_be 0 = List.replicate 4 0 := by decide
    rw [hu]
    unfold initBuffer
    cases echo
    · rw [if_neg (by decide), List.take_replicate]
      congr 1
      omega
    · rw [if_pos rfl]
      have hsplit : List.replicate bufferSize (0 : Nat)
          = List.replicate 20 0 ++ List.replicate (bufferSize - 20) 0 := by
        rw [← List.replicate_add]
        congr 1
        omega
      rw [hsplit, set_append_exact _ _ _ _ (by simp),
        List.take_append_of_le_length (by simp), List.take_replicate]
      congr 1
  constructor
  · show (clientLoop bufferSize clock (packets.zip eintrs)
        ⟨initBuffer bufferSize echo, 0, none, 0⟩).length = _
    rw [clientLoop_length, hzlen]
  · intro i hi
    have hizip : i < (packets.zip eintrs).length := by omega
    have hpair : (packets.zip eintrs).getD i dfltPair
        = (packets.getD i dfltPacket, eintrs.getD i 0) := by
      rw [List.getD_eq_getElem _ _ hizip, List.getElem_zip,
        List.getD_eq_getElem _ _ hi, List.getD_eq_getElem _ _ (by omega)]
    have h := clientLoop_sends bufferSize clock hbs (packets.zip eintrs)
      ⟨initBuffer bufferSize echo, 0, none, 0⟩ 0 hinitlen hinit4
      (Nat.zero_mod _).symm i hizip
    rw [hpair] at h
    have hszi : MIN_SIZE ≤ (packets.getD i dfltPacket).size := by
      have hmem : packets.getD i dfltPacket ∈ packets := by
        rw [List.getD_eq_getElem _ _ hi]
        exact List.getElem_mem _
      exact hsz _ hmem
    refine ⟨h.1, ?_⟩
    have h2 : fromBe (((clientRun bufferSize echo clock packets
        eintrs).getD i dfltSendRec).payload.take 4)
        = (0 + i) % 2 ^ 32 := h.2 hszi
    rw [h2]
    omega

/-- Witness for C1 at a concrete run: three packets of sizes 21, 100,
25 with buffer size 32. -/
theorem client_send_behaviour_witness :
    (clientRun 32 true (fun i => ⟨Int.ofNat i, 0⟩)
        [⟨⟨1, 0⟩, 21⟩, ⟨⟨0, 5⟩, 100⟩, ⟨⟨0, 5⟩, 25⟩] [0, 2, 1]).length = 3
    ∧ ((clientRun 32 true (fun i => ⟨Int.ofNat i, 0⟩)
        [⟨⟨1, 0⟩, 21⟩, ⟨⟨0, 5⟩, 100⟩, ⟨⟨0, 5⟩, 25⟩] [0, 2, 1]).getD 1
          dfltSendRec).payload.length = 32
    ∧ fromBe (((clientRun 32 true (fun i => ⟨Int.ofNat i, 0⟩)
        [⟨⟨1, 0⟩, 21⟩, ⟨⟨0, 5⟩, 100⟩, ⟨⟨0, 5⟩, 25⟩] [0, 2, 1]).getD 1
          dfltSendRec).payload.take 4) = 1 := by
  have h := client_send_behaviour 32 true (fun i => ⟨Int.ofNat i, 0⟩)
    [⟨⟨1, 0⟩, 21⟩, ⟨⟨0, 5⟩, 100⟩, ⟨⟨0, 5⟩, 25⟩] [0, 2, 1]
    (by decide) (by decide) (by decide) (by norm_num)
  have h1 := (h.2 1 (by decide)).1
  have h2 := (h.2 1 (by decide)).2
  exact ⟨h.1, by rw [h1]; decide, h2⟩

/-! ### C10: buffer access safety -/

theorem clientStep_buffer_length (bs : Nat) (clock : Nat → TimeSpecL)
    (p : PacketData) (e : Nat) (s : ClientState)
    (hs : s.buffer.length = bs) (hbs : MIN_SIZE ≤ bs) :
    ((clientStep bs clock p e s).1).buffer.length = bs := by
  have hms : MIN_SIZE = 21 := rfl
  obtain ⟨x, y, _, hbuf, _⟩ := clientStep_payload bs clock p e s
  rw [hbuf]
  have hl1 : (writeAt s.buffer 4 (i64_to_be x)).length = bs := by
    rw [length_writeAt]
    · exact hs
    · rw [length_i64_to_be, hs]; omega
  have hl2 : (writeAt (writeAt s.buffer 4 (i64_to_be x)) 12
      (i64_to_be y)).length = bs := by
    rw [length_writeAt]
    · exact hl1
    · rw [length_i64_to_be, hl1]; omega
  rw [length_writeAt]
  · exact hl2
  · rw [length_u32_to_be, hl2]; omega

theorem optBind_some {α β : Type} (a : α) (f : α → Option β) :
    (some a >>= f) = f a := rfl

theorem spliceChecked_eq_writeAt (buf bytes : List Nat) (start stop : Nat)
    (hstop : stop = start + bytes.length) (hle : stop ≤ buf.length) :
    spliceChecked buf start stop bytes = some (writeAt buf start bytes) := by
  subst hstop
  unfold spliceChecked writeAt
  rw [if_pos ⟨by omega, hle⟩]

theorem clientStepChecked_eq (bs : Nat) (clock : Nat → TimeSpecL)
    (p : PacketData) (e : Nat) (s : ClientState)
    (hs : s.buffer.length = bs) (hbs : MIN_SIZE ≤ bs) :
    clientStepChecked bs clock p e s = some (clientStep bs clock p e s) := by
  have hms : MIN_SIZE = 21 := rfl
  have h1 : ∀ z : Int, spliceChecked s.buffer 4 12 (i64_to_be z)
      = some (writeAt s.buffer 4 (i64_to_be z)) := fun z =>
    spliceChecked_eq_writeAt _ _ _ _ (by rw [length_i64_to_be])
      (by omega)
  have hw1 : ∀ z : Int, (writeAt s.buffer 4 (i64_to_be z)).length = bs := by
    intro z
    rw [length_writeAt]
    · exact hs
    · rw [length_i64_to_be, hs]; omega
  have h2 : ∀ z w : Int,
      spliceChecked (writeAt s.buffer 4 (i64_to_be z)) 12 20 (i64_to_be w)
      = some (writeAt (writeAt s.buffer 4 (i64_to_be z)) 12
          (i64_to_be w)) := fun z w =>
    spliceChecked_eq_writeAt _ _ _ _ (by rw [length_i64_to_be])
      (by rw [hw1 z]; omega)
  have hw2 : ∀ z w : Int, (writeAt (writeAt s.buffer 4 (i64_to_be z)) 12
      (i64_to_be w)).length = bs := by
    intro z w
    rw [length_writeAt]
    · exact hw1 z
    · rw [length_i64_to_be, hw1 z]; omega
  have h3 : ∀ z w : Int,
      takeChecked (writeAt (writeAt s.buffer 4 (i64_to_be z)) 12
        (i64_to_be w)) (min bs p.size)
      = some ((writeAt (writeAt s.buffer 4 (i64_to_be z)) 12
          (i64_to_be w)).take (min bs p.size)) := by
    intro z w
    unfold takeChecked
    rw [if_pos (by rw [hw2 z w]; omega)]
  have h4 : ∀ z w : Int, ∀ m : Nat,
      spliceChecked (writeAt (writeAt s.buffer 4 (i64_to_be z)) 12
        (i64_to_be w)) 0 4 (u32_to_be m)
      = some (writeAt (writeAt (writeAt s.buffer 4 (i64_to_be z)) 12
          (i64_to_be w)) 0 (u32_to_be m)) := fun z w m =>
    spliceChecked_eq_writeAt _ _ _ _ (by rw [length_u32_to_be])
      (by rw [hw2 z w]; omega)
  unfold clientStepChecked
  rw [h1, optBind_some, h2, optBind_some, h3, optBind_some, h4,
    optBind_some]
  obtain ⟨sb, sq, st, sci⟩ := s
  cases st
  · rfl
  · rfl

theorem clientLoopChecked_eq (bs : Nat) (clock : Nat → TimeSpecL)
    (hbs : MIN_SIZE ≤ bs) :
    ∀ (pairs : List (PacketData × Nat)) (s : ClientState),
      s.buffer.length = bs →
      clientLoopChecked bs clock pairs s
        = some (clientLoop bs clock pairs s) := by
  intro pairs
  induction pairs with
  | nil => intro s _; rfl
  | cons q rest ih =>
    intro s hs
    show (do
      let r ← clientStepChecked bs clock q.1 q.2 s
      let rs ← clientLoopChecked bs clock rest r.1
      pure (r.2 :: rs)) = _
    rw [clientStepChecked_eq bs clock q.1 q.2 s hs hbs, optBind_some,
      ih ((clientStep bs clock q.1 q.2 s).1)
        (clientStep_buffer_length bs clock q.1 q.2 s hs hbs),
      optBind_some]
    rfl

/-- C10: with `buffer_size ≥ MIN_SIZE`, every buffer access of the
sender loop (the byte-20 echo-flag write during setup, the timestamp
splices at 4..12 and 12..20, the sequence splice at 0..4, and the send
slice) is in bounds — the bounds-checked run equals the unchecked run —
while for `buffer_size < MIN_SIZE` there are inputs (echo requested) on
which the run panics on an out-of-bounds access instead of returning. -/
theorem client_buffer_access_safety (bufferSize : Nat) (echo : Bool)
    (clock : Nat → TimeSpecL) (packets : List PacketData)
    (eintrs : List Nat) :
    (MIN_SIZE ≤ bufferSize →
      clientRunChecked bufferSize echo clock packets eintrs
        = some (clientRun bufferSize echo clock packets eintrs))
    ∧ (bufferSize < MIN_SIZE →
      clientRunChecked bufferSize true clock [] [] = none) := by
  have hms : MIN_SIZE = 21 := rfl
  constructor
  · intro hbs
    cases echo
    · have hred : clientRunChecked bufferSize false clock packets eintrs
          = clientLoopChecked bufferSize clock (packets.zip eintrs)
            ⟨List.replicate bufferSize 0, 0, none, 0⟩ := rfl
      rw [hred, clientLoopChecked_eq bufferSize clock hbs _ _ (by simp)]
      rfl
    · have hred : clientRunChecked bufferSize true clock packets eintrs
          = (setChecked (List.replicate bufferSize 0) 20 ECHO_FLAG).bind
            (fun b1 => clientLoopChecked bufferSize clock
              (packets.zip eintrs) ⟨b1, 0, none, 0⟩) := rfl
      rw [hred]
      unfold setChecked
      rw [if_pos (by simp; omega)]
      show clientLoopChecked bufferSize clock (packets.zip eintrs)
          ⟨(List.replicate bufferSize 0).set 20 ECHO_FLAG, 0, none, 0⟩ = _
      rw [clientLoopChecked_eq bufferSize clock hbs _ _
        (by rw [List.length_set]; simp)]
      rfl
  · intro hsmall
    have hred : clientRunChecked bufferSize true clock [] []
        = (setChecked (List.replicate bufferSize 0) 20 ECHO_FLAG).bind
          (fun b1 => clientLoopChecked bufferSize clock [] 
            ⟨b1, 0, none, 0⟩) := rfl
    rw [hred]
    unfold setChecked
    rw [if_neg (by simp; omega)]
    rfl

/-- Witness for C10 at concrete sizes: buffer size 32 is safe; buffer
size 20 with echo panics at the byte-20 write. -/
theorem client_buffer_access_safety_witness :
    clientRunChecked 32 true (fun _ => ⟨0, 0⟩) [⟨⟨1, 0⟩, 21⟩] [0]
        = some (clientRun 32 true (fun _ => ⟨0, 0⟩) [⟨⟨1, 0⟩, 21⟩] [0])
    ∧ clientRunChecked 20 true (fun _ => ⟨0, 0⟩) [] [] = none := by
  constructor
  · exact (client_buffer_access_safety 32 true (fun _ => ⟨0, 0⟩)
      [⟨⟨1, 0⟩, 21⟩] [0]).1 (by decide)
  · exact (client_buffer_access_safety 20 true (fun _ => ⟨0, 0⟩)
      [] []).2 (by decide)

end Luna
